import Mathlib

/-!
Verification of the particle-filter core declared in `src/include/Particle.h`
(THUNDER). The repository ships only the header: the class declaration, the
tunable constants (`PEAK_FACTOR_*`, `RHO_*`, …) and the inline body of
`Particle::defaultInit`. Method bodies (`normW`, `resample`, `perturb`,
`symmetrise`, `reCentre`, `calRank1st`, `diffTopR`, `calVari`,
`setPeakFactor`) live in a `Particle.cpp` that is not part of the sources, so
those operations are modelled from the specification's words; each such
definition says so in its doc comment. Reals are modelled by `ℚ` (exact
arithmetic); quaternions by a four-component record.
-/

namespace Thunder

/-- Constant `PEAK_FACTOR_MAX` from Particle.h line 44. -/
def PEAK_FACTOR_MAX : ℚ := 1/2

/-- Constant `PEAK_FACTOR_MIN` from Particle.h line 45. -/
def PEAK_FACTOR_MIN : ℚ := 1/1000

/-- Constant `PEAK_FACTOR_BASE` from Particle.h line 49. -/
def PEAK_FACTOR_BASE : ℚ := 2

/-- Constant `RHO_MAX` from Particle.h line 53. -/
def RHO_MAX : ℚ := 1 - 1/10

/-- Constant `RHO_MIN` from Particle.h line 54. -/
def RHO_MIN : ℚ := -1 + 1/10

/-- Largest finite IEEE-754 double, the value of `DBL_MAX` used by
`defaultInit` for `_s0` and `_s1`. -/
def DBL_MAX : ℚ := 2^1024 - 2^971

/-- Modelled from the spec: the mode constants `MODE_2D` / `MODE_3D` come
from `Macro.h`, which is not among the sources; the spec fixes exactly two
modes (planar and volumetric). -/
inductive Mode where
  | mode2D : Mode
  | mode3D : Mode
deriving DecidableEq, Repr

/-- A quaternion (row of the `_r` table in MODE_3D; in MODE_2D the first two
components hold a unit 2D direction and the last two are zero). -/
structure Quat where
  a : ℚ
  b : ℚ
  c : ℚ
  d : ℚ
deriving DecidableEq, Repr

instance : Inhabited Quat := ⟨⟨1, 0, 0, 0⟩⟩

/-- Dot product of two quaternions viewed as 4-vectors. -/
def Quat.dot (p q : Quat) : ℚ :=
  p.a * q.a + p.b * q.b + p.c * q.c + p.d * q.d

/-- Squared norm of a quaternion. -/
def Quat.normSq (q : Quat) : ℚ := q.dot q

/-- Hamilton product of two quaternions. -/
def Quat.mul (p q : Quat) : Quat :=
  ⟨p.a * q.a - p.b * q.b - p.c * q.c - p.d * q.d,
   p.a * q.b + p.b * q.a + p.c * q.d - p.d * q.c,
   p.a * q.c - p.b * q.d + p.c * q.a + p.d * q.b,
   p.a * q.d + p.b * q.c - p.c * q.b + p.d * q.a⟩

/-- State of one `Particle` instance: the fields of the C++ class that the
claims touch. Ensembles are the per-axis value and weight arrays (`_c`, `_r`,
`_t`, `_d`, `_wC` … `_wD`); the scalar fields mirror `Particle.h` lines
77-244. The symmetry pointer `_sym` is modelled as an optional list of the
group's rotation operators (quaternions). -/
structure Particle where
  mode : Mode
  nC : Nat
  nR : Nat
  nT : Nat
  nD : Nat
  transS : ℚ
  transQ : ℚ
  cVals : List Nat
  rVals : List Quat
  tVals : List (ℚ × ℚ)
  dVals : List ℚ
  wC : List ℚ
  wR : List ℚ
  wT : List ℚ
  wD : List ℚ
  sym : Option (List Quat)
  k1 : ℚ
  k2 : ℚ
  k3 : ℚ
  s0 : ℚ
  s1 : ℚ
  rho : ℚ
  s : ℚ
  topCPrev : Nat
  topC : Nat
  topRPrev : Quat
  topR : Quat
  topTPrev : ℚ × ℚ
  topT : ℚ × ℚ
  topDPrev : ℚ
  topD : ℚ

/-- Embedding of `Particle::defaultInit` (Particle.h lines 249-279), the one
method whose body is in the header. It assigns exactly the fields written
there and leaves every other field of the object as it was. -/
def defaultInit (p : Particle) : Particle :=
  { p with
    mode := Mode.mode3D,
    nC := 1,
    sym := none,
    k1 := 1,
    k2 := 1,
    k3 := 1,
    s0 := DBL_MAX,
    s1 := DBL_MAX,
    rho := 0,
    s := 0,
    topCPrev := 0,
    topC := 0,
    topRPrev := ⟨1, 0, 0, 0⟩,
    topR := ⟨1, 0, 0, 0⟩,
    topTPrev := (0, 0),
    topT := (0, 0),
    topDPrev := 1,
    topD := 1 }

/-- One weighted axis ensemble: values and weights in lockstep. -/
structure Axis (α : Type) where
  vals : List α
  ws : List ℚ

/-- Modelled from the spec: the body of `Particle::normW` (declared at
Particle.h line 690) is not among the sources. Per the spec, `normalize(axis)`
rescales that axis's weights to sum 1 and fails when the sum is non-positive;
values and count are untouched. -/
def normW {α : Type} (e : Axis α) : Option (Axis α) :=
  let sum := e.ws.sum
  if sum ≤ 0 then none
  else some { vals := e.vals, ws := e.ws.map (fun w => w / sum) }

/-- Index of the weight bucket that a cumulative-curve offset `u` falls in:
the first index whose running weight sum exceeds `u`. -/
def pickIdx : List ℚ → ℚ → Nat
  | [], _ => 0
  | w :: rest, u => if u < w then 0 else pickIdx rest (u - w) + 1

/-- Modelled from the spec: the body of `Particle::resample` (declared at
Particle.h lines 844-845) is not among the sources. Per the spec, resampling
draws `n` samples with replacement using a low-variance systematic scheme —
`n` evenly spaced offsets `(i + u0)/n` into the cumulative weight curve with
one shared jitter `u0` — producing `n` samples all of weight `1/n`, and fails
on `n = 0` or an empty source ensemble. -/
def resample {α : Type} (e : Axis α) (n : Nat) (u0 : ℚ) : Option (Axis α) :=
  match e.vals with
  | [] => none
  | v0 :: _ =>
      if n = 0 then none
      else some
        { vals := (List.range n).map
            (fun (i : Nat) => e.vals.getD (pickIdx e.ws (((i : ℚ) + u0) / (n : ℚ))) v0),
          ws := List.replicate n (1 / (n : ℚ)) }

/-- Modelled from the spec: single-sample access by index (e.g. `wR(i)`,
Particle.h line 630) fails with an out-of-range error when the index is
outside `[0, count)`; the C++ index is a signed `int`, modelled by `ℤ`. -/
def wAt {α : Type} (e : Axis α) (i : ℤ) : Option ℚ :=
  if 0 ≤ i ∧ i < e.ws.length then some (e.ws.getD i.toNat 0) else none

/-- Modelled from the spec: single-sample set by index fails with an
out-of-range error when the index is outside `[0, count)`. -/
def setWAt {α : Type} (e : Axis α) (i : ℤ) (w : ℚ) : Option (Axis α) :=
  if 0 ≤ i ∧ i < e.ws.length then
    some { e with ws := e.ws.set i.toNat w }
  else none

/-- Modelled from the spec: rotation operations called in the wrong mode fail
fast; `quaternion(dst, i)` (Particle.h line 763) reads a quaternion, which is
only meaningful in volumetric mode. -/
def quaternionAt (p : Particle) (i : ℤ) : Option Quat :=
  if p.mode = Mode.mode3D then
    if 0 ≤ i ∧ i < p.rVals.length then some (p.rVals.getD i.toNat default)
    else none
  else none

/-- Generic first-occurrence maximiser: fold over the candidates, replacing
the current best only on a strictly higher score, so ties keep the earliest
candidate. -/
def pickMax {α : Type} (score : α → ℚ) (b : α) (l : List α) : α :=
  l.foldl (fun best c => if score best < score c then c else best) b

/-- Closeness of a rotation sample to the anchor orientation: the squared
quaternion dot product. The geodesic angle between the two orientations is
`arccos |dot|`, so a larger squared dot means a strictly smaller angle. -/
def closeness (anchor q : Quat) : ℚ := (Quat.dot anchor q) ^ 2

/-- Modelled from the spec: `Particle::symmetrise` (declared at Particle.h
line 1143) folds one rotation sample — it enumerates the sample's
symmetry-equivalent orientations under the group `sg` and picks the one
closest (by geodesic distance to `anchor`), keeping the sample itself when
nothing is strictly closer. -/
def foldSample (sg : List Quat) (anchor q : Quat) : Quat :=
  pickMax (closeness anchor) q (sg.map (fun g => Quat.mul g q))

/-- Modelled from the spec: the body of `Particle::symmetrise` is not among
the sources; per the spec it rewrites every rotation sample to its closest
symmetry-equivalent representative relative to the anchor orientation. -/
def symmetrise (sg : List Quat) (anchor : Quat) (rs : List Quat) : List Quat :=
  rs.map (foldSample sg anchor)

/-- Modelled from the spec: `perturb` (declared at Particle.h lines 827-828)
draws a noise rotation from the fitted directional model and composes it onto
the sample; composition of orientations is the Hamilton product. -/
def perturbR (noise q : Quat) : Quat := Quat.mul noise q

/-- The four-element lift of the C2 point group: ±identity and ±(rotation by
π about the z axis), closed under the Hamilton product. -/
def symC2Group : List Quat := [⟨1, 0, 0, 0⟩, ⟨-1, 0, 0, 0⟩, ⟨0, 0, 0, 1⟩, ⟨0, 0, 0, -1⟩]

/-- Rank-1 snapshot of the rotation axis: the fields `_topR` and `_topRPrev`
of the C++ class (Particle.h lines 216-223). -/
structure RankR where
  topR : Quat
  topRPrev : Quat
deriving DecidableEq, Repr

/-- Maximum-weight rotation sample, first occurrence winning ties — the
rank-1 rotation of the ensemble. -/
def rank1R (rs : List Quat) (ws : List ℚ) : Quat :=
  match rs.zip ws with
  | [] => ⟨1, 0, 0, 0⟩
  | p :: rest => (pickMax Prod.snd p rest).1

/-- Modelled from the spec: the body of `Particle::calRank1st` (declared at
Particle.h line 817) is not among the sources; per the spec it caches the
previous rank-1 value and then selects the current maximum-weight sample
(deterministic first-occurrence tie-break). -/
def calRank1stR (st : RankR) (rs : List Quat) (ws : List ℚ) : RankR :=
  { topR := rank1R rs ws, topRPrev := st.topR }

/-- Modelled from the spec: `Particle::diffTopR` (declared at Particle.h
line 932) reports the geodesic angle between the previous and the current
rank-1 rotations; the angle is `arccos` of this quantity, the absolute dot
product of the two unit quaternions. -/
def diffTopRCos (st : RankR) : ℚ := |Quat.dot st.topRPrev st.topR|

/-- Mahalanobis quadratic form of the fitted anisotropic translation Gaussian
(standard deviations `s0`, `s1`, correlation `rho`) at the offset `t`. -/
def mahala (s0 s1 rho : ℚ) (t : ℚ × ℚ) : ℚ :=
  (t.1 ^ 2 / s0 ^ 2 - 2 * rho * t.1 * t.2 / (s0 * s1) + t.2 ^ 2 / s1 ^ 2) /
    (1 - rho ^ 2)

/-- Modelled from the spec: the body of `Particle::reCentre` (declared at
Particle.h line 1149) is not among the sources. Per the spec, any translation
sample whose offset lies outside the configured-confidence ellipse of the
fitted translation Gaussian — Mahalanobis form above the chi-square quantile
`thres` determined by `_transQ` — is reset to the origin; samples inside the
ellipse are kept and no other axis is touched. -/
def reCentre (p : Particle) (thres : ℚ) : Particle :=
  { p with
    tVals := p.tVals.map fun t =>
      if thres < mahala p.s0 p.s1 p.rho t then ((0 : ℚ), (0 : ℚ)) else t }

/-- Clamp to the peak-factor floor and ceiling of Particle.h lines 44-45. -/
def clampPF (x : ℚ) : ℚ := max PEAK_FACTOR_MIN (min PEAK_FACTOR_MAX x)

/-- Modelled from the spec: the body of `Particle::setPeakFactor` (declared
at Particle.h line 919) is not among the sources. Per the spec it derives the
peak factor from the axis's compression signal by geometric cooling with base
`PEAK_FACTOR_BASE`, clamped to the fixed floor/ceiling; the compression
signal is modelled by the number of completed cooling steps, which grows as
the ensemble's estimate sharpens. -/
def setPeakFactor (compression : Nat) : ℚ :=
  clampPF (PEAK_FACTOR_MAX / PEAK_FACTOR_BASE ^ compression)

/-- Modelled from the spec: the translation branch of `Particle::calVari`
(declared at Particle.h line 823) is not among the sources. Per the spec the
weighted sample covariance of the 2D offsets yields a raw correlation
`cov / (s0 * s1)` which is clamped to `[RHO_MIN, RHO_MAX]` (constants from
Particle.h lines 53-54). -/
def calVariRho (s0 s1 cov : ℚ) : ℚ :=
  max RHO_MIN (min RHO_MAX (cov / (s0 * s1)))

/-- A concrete particle used to exercise `reCentre`: a unit-scale isotropic
translation fit, one translation sample at the origin and one far outside
any reasonable confidence ellipse. -/
def probePar : Particle :=
  { mode := Mode.mode3D, nC := 1, nR := 1, nT := 2, nD := 1,
    transS := 1, transQ := 1/100,
    cVals := [0], rVals := [⟨1, 0, 0, 0⟩], tVals := [(0, 0), (10, 10)], dVals := [1],
    wC := [1], wR := [1], wT := [1/2, 1/2], wD := [1],
    sym := none, k1 := 1, k2 := 1, k3 := 1,
    s0 := 1, s1 := 1, rho := 0, s := 0,
    topCPrev := 0, topC := 0,
    topRPrev := ⟨1, 0, 0, 0⟩, topR := ⟨1, 0, 0, 0⟩,
    topTPrev := (0, 0), topT := (0, 0),
    topDPrev := 1, topD := 1 }

end Thunder

namespace Thunder

theorem list_sum_map_div (l : List ℚ) (c : ℚ) :
    (l.map (fun w => w / c)).sum = l.sum / c := by
  induction l with
  | nil => simp
  | cons x xs ih => simp [ih, add_div]

/-- Claim C2: for every axis and every nonnegative, non-all-zero weight
vector, `normW` succeeds, the resulting weights sum to exactly 1 (the ℚ model
is exact, hence within any floating tolerance), and the axis's values and
sample count are unchanged. -/
theorem normW_sums_to_one {α : Type} (e : Axis α)
    (hnn : ∀ w ∈ e.ws, 0 ≤ w) (hnz : ∃ w ∈ e.ws, w ≠ 0) :
    ∃ e₂, normW e = some e₂ ∧ e₂.ws.sum = 1 ∧
      e₂.vals = e.vals ∧ e₂.ws.length = e.ws.length := by
  obtain ⟨w, hw, hw0⟩ := hnz
  have hwpos : 0 < w := lt_of_le_of_ne (hnn w hw) (Ne.symm hw0)
  have hsum : 0 < e.ws.sum := lt_of_lt_of_le hwpos (List.single_le_sum hnn w hw)
  refine ⟨{ vals := e.vals, ws := e.ws.map (fun w => w / e.ws.sum) }, ?_, ?_, rfl, by simp⟩
  · simp [normW, not_le.mpr hsum]
  · simp [list_sum_map_div, div_self (ne_of_gt hsum)]

/-- Witness for C2 at a concrete three-sample axis. -/
theorem normW_sums_to_one_witness :
    (∀ w ∈ ([2, 0, 6] : List ℚ), 0 ≤ w) ∧ (∃ w ∈ ([2, 0, 6] : List ℚ), w ≠ 0) ∧
    ∃ e₂, normW (Axis.mk ([10, 20, 30] : List ℚ) [2, 0, 6]) = some e₂ ∧
      e₂.ws.sum = 1 ∧ e₂.vals = [10, 20, 30] ∧ e₂.ws.length = 3 :=
  ⟨by norm_num, ⟨2, by norm_num⟩,
   normW_sums_to_one (Axis.mk ([10, 20, 30] : List ℚ) [2, 0, 6])
     (by norm_num) ⟨2, by norm_num⟩⟩

/-- Claim C10: a default-initialized Particle is volumetric (MODE_3D) with one
class, no Symmetry reference, all three rotation concentration parameters 1,
translation correlation 0, and neutral rank-1 snapshots (class 0, identity
quaternion, origin translation, defocus factor 1) for both current and
previous snapshot — exactly what `defaultInit` assigns in Particle.h
lines 249-279. -/
theorem defaultInit_spec (p : Particle) :
    (defaultInit p).mode = Mode.mode3D ∧
    (defaultInit p).nC = 1 ∧
    (defaultInit p).sym = none ∧
    (defaultInit p).k1 = 1 ∧ (defaultInit p).k2 = 1 ∧ (defaultInit p).k3 = 1 ∧
    (defaultInit p).rho = 0 ∧
    (defaultInit p).topCPrev = 0 ∧ (defaultInit p).topC = 0 ∧
    (defaultInit p).topRPrev = ⟨1, 0, 0, 0⟩ ∧ (defaultInit p).topR = ⟨1, 0, 0, 0⟩ ∧
    (defaultInit p).topTPrev = (0, 0) ∧ (defaultInit p).topT = (0, 0) ∧
    (defaultInit p).topDPrev = 1 ∧ (defaultInit p).topD = 1 := by
  refine ⟨rfl, rfl, rfl, rfl, rfl, rfl, rfl, rfl, rfl, rfl, rfl, rfl, rfl, rfl, rfl⟩

theorem getD_mem {α : Type} (l : List α) (i : Nat) (d : α) (hd : d ∈ l) :
    l.getD i d ∈ l := by
  rcases Nat.lt_or_ge i l.length with h | h
  · rw [List.getD_eq_getElem l d h]
    exact List.getElem_mem h
  · rw [List.getD_eq_default l d h]
    exact hd

theorem resample_some {α : Type} (e : Axis α) (n : Nat) (u0 : ℚ)
    (hn : n ≠ 0) (hne : e.vals ≠ []) :
    ∃ v0 rest, e.vals = v0 :: rest ∧
      resample e n u0 = some
        { vals := (List.range n).map
            (fun (i : Nat) => e.vals.getD (pickIdx e.ws (((i : ℚ) + u0) / (n : ℚ))) v0),
          ws := List.replicate n (1 / (n : ℚ)) } := by
  match hv : e.vals with
  | [] => exact absurd hv hne
  | v0 :: rest =>
      exact ⟨v0, rest, rfl, by rw [resample, hv]; simp [hn, ← hv]⟩

/-- Claim C1: for an axis with a non-empty ensemble whose weights are
normalized and every `n ≥ 1`, `resample` succeeds with exactly `n` samples,
every weight equal to `1/n`, and every produced value an element of the
pre-resample value set — in particular rotation resampling never interpolates
new orientations. -/
theorem resample_spec {α : Type} (e : Axis α) (n : Nat) (u0 : ℚ)
    (hn : 1 ≤ n) (hne : e.vals ≠ []) (_hw : e.ws.sum = 1) :
    ∃ e₂, resample e n u0 = some e₂ ∧
      e₂.vals.length = n ∧
      e₂.ws.length = n ∧ (∀ w ∈ e₂.ws, w = 1 / (n : ℚ)) ∧
      ∀ v ∈ e₂.vals, v ∈ e.vals := by
  obtain ⟨v0, rest, hv, hres⟩ :=
    resample_some e n u0 (Nat.one_le_iff_ne_zero.mp hn) hne
  refine ⟨_, hres, by simp, by simp, ?_, ?_⟩
  · intro w hwmem
    exact (List.eq_of_mem_replicate hwmem)
  · intro v hvmem
    simp only [List.mem_map, List.mem_range] at hvmem
    obtain ⟨i, _, hi⟩ := hvmem
    rw [← hi]
    exact getD_mem e.vals _ v0 (by rw [hv]; exact List.mem_cons_self v0 rest)

/-- Witness for C1: resampling a concrete two-value axis to 3 samples. -/
theorem resample_spec_witness :
    1 ≤ 3 ∧ ([7, 9] : List ℚ) ≠ [] ∧ ([1/4, 3/4] : List ℚ).sum = 1 ∧
    ∃ e₂, resample (Axis.mk ([7, 9] : List ℚ) [1/4, 3/4]) 3 0 = some e₂ ∧
      e₂.vals.length = 3 ∧
      e₂.ws.length = 3 ∧ (∀ w ∈ e₂.ws, w = 1 / (3 : ℚ)) ∧
      ∀ v ∈ e₂.vals, v ∈ ([7, 9] : List ℚ) :=
  ⟨by norm_num, by simp, by norm_num,
   resample_spec (Axis.mk ([7, 9] : List ℚ) [1/4, 3/4]) 3 0
     (by norm_num) (by simp) (by norm_num)⟩

/-- Claim C3: every precondition violation fails fast rather than silently
continuing — normalizing an axis with non-positive weight sum fails,
single-sample get/set outside `[0, count)` fails, resampling to zero or from
an empty ensemble fails, and a rotation read in the wrong mode fails. -/
theorem failFast_spec :
    (∀ (e : Axis ℚ), e.ws.sum ≤ 0 → normW e = none) ∧
    (∀ (e : Axis ℚ) (i : ℤ), i < 0 ∨ (e.ws.length : ℤ) ≤ i →
      wAt e i = none ∧ setWAt e i 0 = none) ∧
    (∀ (e : Axis ℚ) (u0 : ℚ), resample e 0 u0 = none) ∧
    (∀ (e : Axis ℚ) (n : Nat) (u0 : ℚ), e.vals = [] → resample e n u0 = none) ∧
    (∀ (p : Particle) (i : ℤ), p.mode = Mode.mode2D → quaternionAt p i = none) := by
  refine ⟨?_, ?_, ?_, ?_, ?_⟩
  · intro e h
    simp [normW, h]
  · intro e i h
    have hout : ¬ (0 ≤ i ∧ i < (e.ws.length : ℤ)) := by omega
    exact ⟨by simp [wAt, hout], by simp [setWAt, hout]⟩
  · intro e u0
    rw [resample]
    match e.vals with
    | [] => rfl
    | v0 :: rest => simp
  · intro e n u0 h
    rw [resample, h]
  · intro p i h
    simp [quaternionAt, h]

/-- Witness for C3 at concrete violating inputs. -/
theorem failFast_spec_witness :
    (((Axis.mk ([5] : List ℚ) [0]).ws.sum ≤ 0) ∧
      normW (Axis.mk ([5] : List ℚ) [0]) = none) ∧
    ((((3 : ℤ) < 0 ∨ ((Axis.mk ([5] : List ℚ) [1]).ws.length : ℤ) ≤ 3) ∧
      wAt (Axis.mk ([5] : List ℚ) [1]) 3 = none ∧
      setWAt (Axis.mk ([5] : List ℚ) [1]) 3 0 = none)) ∧
    (resample (Axis.mk ([5] : List ℚ) [1]) 0 0 = none) ∧
    (resample (Axis.mk ([] : List ℚ) []) 4 0 = none) := by
  refine ⟨⟨by norm_num, failFast_spec.1 _ (by norm_num)⟩,
          ⟨by norm_num, failFast_spec.2.1 _ 3 (by norm_num)⟩,
          failFast_spec.2.2.1 _ 0,
          failFast_spec.2.2.2.1 _ 4 0 rfl⟩

theorem quat_mul_assoc (p q r : Quat) :
    Quat.mul (Quat.mul p q) r = Quat.mul p (Quat.mul q r) := by
  simp only [Quat.mul, Quat.mk.injEq]
  refine ⟨by ring, by ring, by ring, by ring⟩

theorem quat_normSq_mul (p q : Quat) :
    (Quat.mul p q).normSq = p.normSq * q.normSq := by
  simp only [Quat.mul, Quat.normSq, Quat.dot]
  ring

theorem pickMax_cons {α : Type} (score : α → ℚ) (b c : α) (cs : List α) :
    pickMax score b (c :: cs) =
      pickMax score (if score b < score c then c else b) cs := rfl

theorem pickMax_mem {α : Type} (score : α → ℚ) (b : α) (l : List α) :
    pickMax score b l ∈ b :: l := by
  induction l generalizing b with
  | nil => simp [pickMax]
  | cons c cs ih =>
      rw [pickMax_cons]
      by_cases hbc : score b < score c
      · rw [if_pos hbc]
        rcases List.mem_cons.mp (ih c) with h | h
        · rw [h]
          exact List.mem_cons.mpr (Or.inr (List.mem_cons_self c cs))
        · exact List.mem_cons.mpr (Or.inr (List.mem_cons.mpr (Or.inr h)))
      · rw [if_neg hbc]
        rcases List.mem_cons.mp (ih b) with h | h
        · rw [h]
          exact List.mem_cons_self b _
        · exact List.mem_cons.mpr (Or.inr (List.mem_cons.mpr (Or.inr h)))

theorem pickMax_le {α : Type} (score : α → ℚ) (b : α) (l : List α) :
    score b ≤ score (pickMax score b l) ∧
    ∀ c ∈ l, score c ≤ score (pickMax score b l) := by
  induction l generalizing b with
  | nil => exact ⟨le_refl _, by simp⟩
  | cons c cs ih =>
      rw [pickMax_cons]
      by_cases hbc : score b < score c
      · rw [if_pos hbc]
        obtain ⟨hb, hrest⟩ := ih c
        refine ⟨le_trans (le_of_lt hbc) hb, ?_⟩
        intro x hx
        rcases List.mem_cons.mp hx with rfl | hx
        · exact hb
        · exact hrest x hx
      · rw [if_neg hbc]
        obtain ⟨hb, hrest⟩ := ih b
        refine ⟨hb, ?_⟩
        intro x hx
        rcases List.mem_cons.mp hx with rfl | hx
        · exact le_trans (not_lt.mp hbc) hb
        · exact hrest x hx

theorem pickMax_eq_self {α : Type} (score : α → ℚ) (b : α) (l : List α)
    (h : ∀ c ∈ l, score c ≤ score b) : pickMax score b l = b := by
  induction l with
  | nil => rfl
  | cons c cs ih =>
      rw [pickMax_cons, if_neg (not_lt.mpr (h c (List.mem_cons_self c cs)))]
      exact ih (fun x hx => h x (List.mem_cons.mpr (Or.inr hx)))

theorem foldSample_mem (sg : List Quat) (anchor q : Quat) :
    foldSample sg anchor q = q ∨ ∃ g ∈ sg, foldSample sg anchor q = Quat.mul g q := by
  rcases List.mem_cons.mp
      (pickMax_mem (closeness anchor) q (sg.map (fun g => Quat.mul g q))) with h | h
  · exact Or.inl h
  · obtain ⟨g, hg, hgq⟩ := List.mem_map.mp h
    exact Or.inr ⟨g, hg, hgq.symm⟩

theorem foldSample_idem (sg : List Quat) (anchor q : Quat)
    (hclose : ∀ g ∈ sg, ∀ g2 ∈ sg, Quat.mul g g2 ∈ sg) :
    foldSample sg anchor (foldSample sg anchor q) = foldSample sg anchor q := by
  apply pickMax_eq_self
  intro c hc
  obtain ⟨g, hg, rfl⟩ := List.mem_map.mp hc
  rcases foldSample_mem sg anchor q with hr | ⟨g0, hg0, hr⟩
  · have h2 : Quat.mul g (foldSample sg anchor q) = Quat.mul g q := by rw [hr]
    rw [h2]
    exact (pickMax_le (closeness anchor) q (sg.map (fun g => Quat.mul g q))).2 _
      (List.mem_map_of_mem (fun g => Quat.mul g q) hg)
  · have h2 : Quat.mul g (foldSample sg anchor q) = Quat.mul (Quat.mul g g0) q := by
      rw [hr, ← quat_mul_assoc]
    rw [h2]
    exact (pickMax_le (closeness anchor) q (sg.map (fun g => Quat.mul g q))).2 _
      (List.mem_map_of_mem (fun g => Quat.mul g q) (hclose g hg g0 hg0))

/-- Claim C5: `symmetrise` is idempotent — for a rotation ensemble in
volumetric mode, a fixed reference orientation and a symmetry group closed
under composition, a second consecutive `symmetrise` leaves the already-folded
ensemble unchanged. -/
theorem symmetrise_idem (sg : List Quat) (anchor : Quat) (rs : List Quat)
    (hclose : ∀ g ∈ sg, ∀ g2 ∈ sg, Quat.mul g g2 ∈ sg) :
    symmetrise sg anchor (symmetrise sg anchor rs) = symmetrise sg anchor rs := by
  simp only [symmetrise, List.map_map, Function.comp]
  exact List.map_congr_left (fun q _ => foldSample_idem sg anchor q hclose)

/-- Witness for C5: the four-element lift of the C2 point group
(±identity, ±rotation by π about z) and a concrete two-sample ensemble. -/
theorem symmetrise_idem_witness :
    (∀ g ∈ symC2Group, ∀ g2 ∈ symC2Group, Quat.mul g g2 ∈ symC2Group) ∧
    symmetrise symC2Group ⟨1, 0, 0, 0⟩
      (symmetrise symC2Group ⟨1, 0, 0, 0⟩ [⟨1/2, 1/2, 1/2, 1/2⟩, ⟨0, 1, 0, 0⟩]) =
    symmetrise symC2Group ⟨1, 0, 0, 0⟩ [⟨1/2, 1/2, 1/2, 1/2⟩, ⟨0, 1, 0, 0⟩] :=
  ⟨by simp [symC2Group, Quat.mul],
   symmetrise_idem symC2Group ⟨1, 0, 0, 0⟩ [⟨1/2, 1/2, 1/2, 1/2⟩, ⟨0, 1, 0, 0⟩]
     (by simp [symC2Group, Quat.mul])⟩

theorem resample_vals_subset {α : Type} (e : Axis α) (n : Nat) (u0 : ℚ)
    (e₂ : Axis α) (h : resample e n u0 = some e₂) : ∀ v ∈ e₂.vals, v ∈ e.vals := by
  obtain ⟨vals, ws⟩ := e
  match vals with
  | [] =>
      simp only [resample] at h
      exact Option.noConfusion h
  | v0 :: rest =>
      simp only [resample] at h
      by_cases hn : n = 0
      · rw [if_pos hn] at h
        exact Option.noConfusion h
      · rw [if_neg hn] at h
        obtain rfl := Option.some.inj h
        intro v hv
        simp only [List.mem_map, List.mem_range] at hv
        obtain ⟨i, _, hi⟩ := hv
        rw [← hi]
        exact getD_mem _ _ v0 (List.mem_cons_self v0 rest)

/-- Claim C4: every rotation sample has unit norm after perturb (composing a
unit noise rotation preserves the unit norm exactly in the ℚ model), after
resample (values are drawn from the pre-resample set), and after symmetrise
(every representative is a unit group element times a unit sample). The
planar case is the sub-case with third and fourth components zero. -/
theorem rotation_unit_norm :
    (∀ noise q : Quat, noise.normSq = 1 → q.normSq = 1 →
      (perturbR noise q).normSq = 1) ∧
    (∀ (e : Axis Quat) (n : Nat) (u0 : ℚ) (e₂ : Axis Quat),
      (∀ q ∈ e.vals, q.normSq = 1) → resample e n u0 = some e₂ →
      ∀ q ∈ e₂.vals, q.normSq = 1) ∧
    (∀ (sg : List Quat) (anchor : Quat) (rs : List Quat),
      (∀ g ∈ sg, g.normSq = 1) → (∀ q ∈ rs, q.normSq = 1) →
      ∀ q ∈ symmetrise sg anchor rs, q.normSq = 1) := by
  refine ⟨?_, ?_, ?_⟩
  · intro noise q hn hq
    rw [perturbR, quat_normSq_mul, hn, hq, mul_one]
  · intro e n u0 e₂ hunit h q hq
    exact hunit q (resample_vals_subset e n u0 e₂ h q hq)
  · intro sg anchor rs hsg hrs q hq
    obtain ⟨q0, hq0, rfl⟩ := List.mem_map.mp hq
    rcases foldSample_mem sg anchor q0 with hr | ⟨g, hg, hr⟩
    · rw [hr]
      exact hrs q0 hq0
    · rw [hr, quat_normSq_mul, hsg g hg, hrs q0 hq0, mul_one]

/-- Witness for C4: a concrete unit noise/sample pair, a concrete
single-sample resample, and a concrete symmetrise under the C2 group. -/
theorem rotation_unit_norm_witness :
    ((Quat.mk 0 1 0 0).normSq = 1 ∧ (Quat.mk 1 0 0 0).normSq = 1 ∧
      (perturbR ⟨0, 1, 0, 0⟩ ⟨1, 0, 0, 0⟩).normSq = 1) ∧
    ((∀ q ∈ (Axis.mk [(⟨1, 0, 0, 0⟩ : Quat)] [1]).vals, q.normSq = 1) ∧
      resample (Axis.mk [(⟨1, 0, 0, 0⟩ : Quat)] [1]) 2 0 =
        some (Axis.mk [⟨1, 0, 0, 0⟩, ⟨1, 0, 0, 0⟩] [1/2, 1/2]) ∧
      ∀ q ∈ (Axis.mk [(⟨1, 0, 0, 0⟩ : Quat), ⟨1, 0, 0, 0⟩] [1/2, 1/2]).vals,
        q.normSq = 1) ∧
    ((∀ g ∈ symC2Group, g.normSq = 1) ∧ (∀ q ∈ [(⟨0, 1, 0, 0⟩ : Quat)], q.normSq = 1) ∧
      ∀ q ∈ symmetrise symC2Group ⟨1, 0, 0, 0⟩ [⟨0, 1, 0, 0⟩], q.normSq = 1) := by
  have h1 : (Quat.mk 0 1 0 0).normSq = 1 := by norm_num [Quat.normSq, Quat.dot]
  have h2 : (Quat.mk 1 0 0 0).normSq = 1 := by norm_num [Quat.normSq, Quat.dot]
  have hres : resample (Axis.mk [(⟨1, 0, 0, 0⟩ : Quat)] [1]) 2 0 =
      some (Axis.mk [⟨1, 0, 0, 0⟩, ⟨1, 0, 0, 0⟩] [1/2, 1/2]) := by
    norm_num [resample, pickIdx, List.range_succ, List.replicate]
  have hin : ∀ q ∈ (Axis.mk [(⟨1, 0, 0, 0⟩ : Quat)] [1]).vals, q.normSq = 1 := by
    intro q hq
    simp only [List.mem_singleton] at hq
    rw [hq]
    exact h2
  have hsg : ∀ g ∈ symC2Group, g.normSq = 1 := by
    intro g hg
    simp only [symC2Group, List.mem_cons, List.not_mem_nil, or_false] at hg
    rcases hg with rfl | rfl | rfl | rfl <;> norm_num [Quat.normSq, Quat.dot]
  have hrs : ∀ q ∈ [(⟨0, 1, 0, 0⟩ : Quat)], q.normSq = 1 := by
    intro q hq
    simp only [List.mem_cons, List.not_mem_nil, or_false] at hq
    rw [hq]
    exact h1
  exact ⟨⟨h1, h2, rotation_unit_norm.1 _ _ h1 h2⟩,
         ⟨hin, hres, rotation_unit_norm.2.1 _ 2 0 _ hin hres⟩,
         ⟨hsg, hrs, rotation_unit_norm.2.2 symC2Group ⟨1, 0, 0, 0⟩ _ hsg hrs⟩⟩

theorem rank1R_mem (rs : List Quat) (ws : List ℚ)
    (hne : rs ≠ []) (hlen : rs.length = ws.length) : rank1R rs ws ∈ rs := by
  rw [rank1R]
  match hz : rs.zip ws with
  | [] =>
      have : rs = [] := by
        have hlz : (rs.zip ws).length = min rs.length ws.length :=
          List.length_zip rs ws
        rw [hz, ← hlen] at hlz
        simp at hlz
        exact List.eq_nil_of_length_eq_zero hlz.symm
      exact absurd this hne
  | p :: rest =>
      have hmem : pickMax Prod.snd p rest ∈ p :: rest := pickMax_mem Prod.snd p rest
      rw [← hz] at hmem
      obtain ⟨a, b⟩ := pickMax Prod.snd p rest
      exact (List.of_mem_zip hmem).1

/-- Claim C6: after two consecutive rank-1 extraction calls on the same
weighted rotation ensemble the rank-1 rotation is unchanged and the reported
geodesic angle is 0; for two orthogonal unit orientations the reported
geodesic angle is exactly a right angle. -/
theorem diffTopR_spec :
    (∀ (st : RankR) (rs : List Quat) (ws : List ℚ),
      rs ≠ [] → rs.length = ws.length → (∀ q ∈ rs, q.normSq = 1) →
      (calRank1stR (calRank1stR st rs ws) rs ws).topR =
        (calRank1stR (calRank1stR st rs ws) rs ws).topRPrev ∧
      Real.arccos ((diffTopRCos (calRank1stR (calRank1stR st rs ws) rs ws) : ℚ) : ℝ)
        = 0) ∧
    (∀ p q : Quat, p.normSq = 1 → q.normSq = 1 → Quat.dot p q = 0 →
      Real.arccos ((diffTopRCos ⟨q, p⟩ : ℚ) : ℝ) = Real.pi / 2) := by
  constructor
  · intro st rs ws hne hlen hunit
    have htop : (calRank1stR (calRank1stR st rs ws) rs ws).topR =
        (calRank1stR (calRank1stR st rs ws) rs ws).topRPrev := rfl
    refine ⟨htop, ?_⟩
    have hr : rank1R rs ws ∈ rs := rank1R_mem rs ws hne hlen
    have hcos : diffTopRCos (calRank1stR (calRank1stR st rs ws) rs ws) = 1 := by
      show |Quat.dot (rank1R rs ws) (rank1R rs ws)| = 1
      rw [show Quat.dot (rank1R rs ws) (rank1R rs ws) = (rank1R rs ws).normSq from rfl,
        hunit _ hr]
      norm_num
    rw [hcos]
    push_cast
    exact Real.arccos_one
  · intro p q _ _ hdot
    have hcos : diffTopRCos ⟨q, p⟩ = 0 := by
      show |Quat.dot p q| = 0
      rw [hdot]
      norm_num
    rw [hcos]
    push_cast
    exact Real.arccos_zero

/-- Witness for C6: a concrete two-sample ensemble and the orthogonal pair of
the identity and a rotation by π about the x axis. -/
theorem diffTopR_spec_witness :
    (([(⟨1, 0, 0, 0⟩ : Quat), ⟨0, 1, 0, 0⟩] ≠ ([] : List Quat)) ∧
      ([(⟨1, 0, 0, 0⟩ : Quat), ⟨0, 1, 0, 0⟩].length = ([1/4, 3/4] : List ℚ).length) ∧
      (∀ q ∈ [(⟨1, 0, 0, 0⟩ : Quat), ⟨0, 1, 0, 0⟩], q.normSq = 1) ∧
      ((calRank1stR (calRank1stR ⟨⟨1, 0, 0, 0⟩, ⟨1, 0, 0, 0⟩⟩
          [⟨1, 0, 0, 0⟩, ⟨0, 1, 0, 0⟩] [1/4, 3/4]) [⟨1, 0, 0, 0⟩, ⟨0, 1, 0, 0⟩] [1/4, 3/4]).topR =
        (calRank1stR (calRank1stR ⟨⟨1, 0, 0, 0⟩, ⟨1, 0, 0, 0⟩⟩
          [⟨1, 0, 0, 0⟩, ⟨0, 1, 0, 0⟩] [1/4, 3/4]) [⟨1, 0, 0, 0⟩, ⟨0, 1, 0, 0⟩] [1/4, 3/4]).topRPrev ∧
       Real.arccos ((diffTopRCos (calRank1stR (calRank1stR ⟨⟨1, 0, 0, 0⟩, ⟨1, 0, 0, 0⟩⟩
          [⟨1, 0, 0, 0⟩, ⟨0, 1, 0, 0⟩] [1/4, 3/4]) [⟨1, 0, 0, 0⟩, ⟨0, 1, 0, 0⟩] [1/4, 3/4]) : ℚ) : ℝ)
        = 0)) ∧
    (Quat.dot ⟨1, 0, 0, 0⟩ ⟨0, 1, 0, 0⟩ = 0 ∧
      Real.arccos ((diffTopRCos ⟨⟨0, 1, 0, 0⟩, ⟨1, 0, 0, 0⟩⟩ : ℚ) : ℝ) = Real.pi / 2) := by
  have hunit : ∀ q ∈ [(⟨1, 0, 0, 0⟩ : Quat), ⟨0, 1, 0, 0⟩], q.normSq = 1 := by
    intro q hq
    simp only [List.mem_cons, List.not_mem_nil, or_false] at hq
    rcases hq with rfl | rfl <;> norm_num [Quat.normSq, Quat.dot]
  refine ⟨⟨by simp, by simp, hunit,
    diffTopR_spec.1 ⟨⟨1, 0, 0, 0⟩, ⟨1, 0, 0, 0⟩⟩ _ _ (by simp) (by simp) hunit⟩,
    ⟨by norm_num [Quat.dot],
     diffTopR_spec.2 ⟨1, 0, 0, 0⟩ ⟨0, 1, 0, 0⟩ (by norm_num [Quat.normSq, Quat.dot])
       (by norm_num [Quat.normSq, Quat.dot]) (by norm_num [Quat.dot])⟩⟩

/-- Claim C7: after `reCentre`, every translation sample whose offset lies
outside the confidence ellipse (Mahalanobis form above the quantile `thres`)
is reset to the origin, every sample inside is unchanged, and the class,
rotation and defocus ensembles are untouched. -/
theorem reCentre_spec (p : Particle) (thres : ℚ) (i : Nat)
    (hi : i < p.tVals.length) :
    ((thres < mahala p.s0 p.s1 p.rho (p.tVals.getD i (0, 0)) →
        (reCentre p thres).tVals.getD i (0, 0) = (0, 0)) ∧
     (¬ thres < mahala p.s0 p.s1 p.rho (p.tVals.getD i (0, 0)) →
        (reCentre p thres).tVals.getD i (0, 0) = p.tVals.getD i (0, 0))) ∧
    (reCentre p thres).cVals = p.cVals ∧
    (reCentre p thres).rVals = p.rVals ∧
    (reCentre p thres).dVals = p.dVals ∧
    (reCentre p thres).tVals.length = p.tVals.length := by
  have hlen : (reCentre p thres).tVals.length = p.tVals.length := by
    simp [reCentre]
  have hi2 : i < (reCentre p thres).tVals.length := by rw [hlen]; exact hi
  have hget : (reCentre p thres).tVals.getD i (0, 0) =
      (if thres < mahala p.s0 p.s1 p.rho (p.tVals.getD i (0, 0)) then ((0 : ℚ), (0 : ℚ))
       else p.tVals.getD i (0, 0)) := by
    rw [List.getD_eq_getElem _ _ hi2, List.getD_eq_getElem _ _ hi]
    simp [reCentre, List.getElem_map, List.getD_eq_getElem _ _ hi]
  refine ⟨⟨?_, ?_⟩, rfl, rfl, rfl, hlen⟩
  · intro hout
    rw [hget, if_pos hout]
  · intro hin
    rw [hget, if_neg hin]

/-- Witness for C7 at `probePar`: the far-out sample at index 1 is reset to
the origin while the other axes are untouched. -/
theorem reCentre_spec_witness :
    (1 < probePar.tVals.length) ∧
    (10 < mahala probePar.s0 probePar.s1 probePar.rho (probePar.tVals.getD 1 (0, 0))) ∧
    (reCentre probePar 10).tVals.getD 1 (0, 0) = (0, 0) ∧
    (reCentre probePar 10).cVals = probePar.cVals ∧
    (reCentre probePar 10).rVals = probePar.rVals ∧
    (reCentre probePar 10).dVals = probePar.dVals := by
  have hi : 1 < probePar.tVals.length := by simp [probePar]
  have hout : 10 < mahala probePar.s0 probePar.s1 probePar.rho
      (probePar.tVals.getD 1 (0, 0)) := by
    norm_num [probePar, mahala]
  obtain ⟨⟨hreset, _⟩, hc, hr, hd, _⟩ := reCentre_spec probePar 10 1 hi
  exact ⟨hi, hout, hreset hout, hc, hr, hd⟩

/-- Claim C8: after `setPeakFactor` the peak factor lies within the fixed
floor/ceiling bounds `PEAK_FACTOR_MIN = 1e-3` and `PEAK_FACTOR_MAX = 0.5`,
and it shrinks monotonically as the axis's compression signal increases
(geometric cooling with base `PEAK_FACTOR_BASE`). -/
theorem setPeakFactor_spec (n m : Nat) (hnm : n ≤ m) :
    (PEAK_FACTOR_MIN ≤ setPeakFactor n ∧ setPeakFactor n ≤ PEAK_FACTOR_MAX) ∧
    setPeakFactor m ≤ setPeakFactor n := by
  have hminmax : PEAK_FACTOR_MIN ≤ PEAK_FACTOR_MAX := by
    norm_num [PEAK_FACTOR_MIN, PEAK_FACTOR_MAX]
  refine ⟨⟨le_max_left _ _, max_le hminmax (min_le_left _ _)⟩, ?_⟩
  have hbase : (0 : ℚ) < PEAK_FACTOR_BASE := by norm_num [PEAK_FACTOR_BASE]
  have hpow : PEAK_FACTOR_BASE ^ n ≤ PEAK_FACTOR_BASE ^ m :=
    pow_le_pow_right₀ (by norm_num [PEAK_FACTOR_BASE]) hnm
  have hdiv : PEAK_FACTOR_MAX / PEAK_FACTOR_BASE ^ m ≤
      PEAK_FACTOR_MAX / PEAK_FACTOR_BASE ^ n := by
    apply div_le_div_of_nonneg_left (by norm_num [PEAK_FACTOR_MAX])
      (pow_pos hbase n) hpow
  exact max_le_max (le_refl _) (min_le_min (le_refl _) hdiv)

/-- Witness for C8 at compression signals 1 and 3. -/
theorem setPeakFactor_spec_witness :
    (1 ≤ 3) ∧
    ((PEAK_FACTOR_MIN ≤ setPeakFactor 1 ∧ setPeakFactor 1 ≤ PEAK_FACTOR_MAX) ∧
      setPeakFactor 3 ≤ setPeakFactor 1) :=
  ⟨by decide, setPeakFactor_spec 1 3 (by decide)⟩

/-- Claim C9: after every translation statistics fit the clamped correlation
lies in `[RHO_MIN, RHO_MAX] = [-(1 - 1e-1), 1 - 1e-1]`, which is strictly
inside `(-1, 1)`, so the fitted 2D Gaussian covariance is never singular. -/
theorem calVariRho_spec (s0 s1 cov : ℚ) :
    RHO_MIN ≤ calVariRho s0 s1 cov ∧ calVariRho s0 s1 cov ≤ RHO_MAX ∧
    (calVariRho s0 s1 cov) ^ 2 < 1 := by
  have h1 : RHO_MIN ≤ calVariRho s0 s1 cov := le_max_left _ _
  have h2 : calVariRho s0 s1 cov ≤ RHO_MAX :=
    max_le (by norm_num [RHO_MIN, RHO_MAX]) (min_le_left _ _)
  refine ⟨h1, h2, ?_⟩
  have hlo : -(9 / 10 : ℚ) ≤ calVariRho s0 s1 cov := by
    calc -(9 / 10 : ℚ) = RHO_MIN := by norm_num [RHO_MIN]
    _ ≤ _ := h1
  have hhi : calVariRho s0 s1 cov ≤ (9 / 10 : ℚ) := by
    calc calVariRho s0 s1 cov ≤ RHO_MAX := h2
    _ = (9 / 10 : ℚ) := by norm_num [RHO_MAX]
  nlinarith [hlo, hhi]

end Thunder
